import Mathlib

/-!
Verification of the Archbox package-resolution and installation-orchestration
engine against its specification.

The Rust source is embedded shallowly:

* the data model (src/package/mod.rs) becomes plain Lean structures;
* the dependency resolver (src/repository/manager.rs,
  Manager::resolve_packages / resolve_package_recursive) becomes a
  well-founded recursive function over an association-list definition store;
* the external world (process execution, filesystem, network, clock) is
  passed in as explicit oracle functions, and each modelled operation
  additionally returns a trace of the external actions it performed, so
  that claims about which side effects happen (and in which order) are
  statable;
* Rust HashMap values are modelled as association lists; all observations
  go through key lookup, so list order is irrelevant;
* chrono timestamps are modelled as seconds-since-epoch naturals (all
  reachable states only compare a current time against an earlier one);
* Result values become Except values over an Error type mirroring
  src/error.rs.
-/

namespace Archbox

/-- Types of dependencies (src/package/mod.rs, DependencyType). -/
inductive DependencyType where
  | System
  | Package
  | Runtime
  | Build
deriving DecidableEq, Repr, BEq

/-- Package dependency definition (src/package/mod.rs, Dependency). -/
structure Dependency where
  name : String
  version : Option String
  optional : Bool
  platform : Option String
  dep_type : DependencyType
deriving DecidableEq, Repr

/-- Installation methods (src/package/mod.rs, Installation). -/
inductive Installation where
  | Pacman (packages : List String) (flags : Option (List String))
  | Aur (package : String) (helper : Option String)
  | Binary (url : String) (checksum : Option String) (install_path : String) (executable : Bool)
  | Source (url : String) (build_commands : List String) (install_commands : List String)
  | Script (script : String) (interpreter : String)
  | AppImage (url : String) (checksum : Option String) (integrate : Bool)
  | Flatpak (id : String) (remote : Option String)
deriving DecidableEq, Repr

/-- Post-installation configuration (src/package/mod.rs, PostInstall).
The Rust HashMap fields (config_files, environment) are modelled as
association lists; the iteration order of the Rust HashMap is arbitrary,
and no claim depends on it. -/
structure PostInstall where
  commands : Option (List String)
  config_files : Option (List (String × String))
  enable_services : Option (List String)
  user_groups : Option (List String)
  environment : Option (List (String × String))
deriving DecidableEq, Repr

/-- Package metadata (src/package/mod.rs, PackageMetadata). -/
structure PackageMetadata where
  author : Option String
  homepage : Option String
  repository : Option String
  license : Option String
  tags : Option (List String)
  updated : Option String
  size : Option String
deriving DecidableEq, Repr

/-- A package in the repository (src/package/mod.rs, Package). -/
structure Package where
  name : String
  version : String
  description : String
  long_description : Option String
  categories : List String
  dependencies : List Dependency
  installation : Installation
  post_install : Option PostInstall
  metadata : PackageMetadata
deriving DecidableEq, Repr

/-- Package installation status (src/package/mod.rs, InstallStatus). -/
inductive InstallStatus where
  | NotInstalled
  | Installed (version : String) (installed_at : String)
  | UpdateAvailable (current : String) (available : String)
  | Error (message : String)
deriving DecidableEq, Repr

/-- Error type mirroring the variants of src/error.rs used by the engine.
IO-level errors carry only a message here. -/
inductive Error where
  | Io (msg : String)
  | Config (msg : String)
  | PackageNotFound (name : String)
  | InstallationFailed (msg : String)
  | Network (msg : String)
  | CommandFailed (message : String)
  | Dependency (msg : String)
deriving DecidableEq, Repr

/-- Package.get_dependencies (src/package/mod.rs): all dependencies whose
kind discriminant matches the given kind (the Rust code compares
std::mem::discriminant; the kinds carry no payload, so this is equality). -/
def Package.get_dependencies (p : Package) (t : DependencyType) : List Dependency :=
  p.dependencies.filter (fun dep => dep.dep_type == t)

/-! ## Definition store

DefinitionLoader keeps a HashMap from package name to Package
(src/package/definition.rs); it is modelled as an association list.
Both insertion sites key the map by the package's own name field, so a
well-formed store maps each key to a package with that name. -/

/-- A name-keyed definition store (DefinitionLoader.packages). -/
abbrev Store := List (String × Package)

/-- DefinitionLoader.get_package: HashMap lookup by name. -/
def lookupStore (store : Store) (name : String) : Option Package :=
  (store.find? (fun e => e.fst == name)).map (fun e => e.snd)

/-- The keys present in the store. -/
def storeKeys (store : Store) : List String :=
  store.map (fun e => e.fst)

/-- The loader invariant: every stored package is keyed by its own name. -/
def WFStore (store : Store) : Prop :=
  ∀ n p, lookupStore store n = some p → p.name = n

/-! ## Dependency resolver

Manager::resolve_packages / resolve_package_recursive
(src/repository/manager.rs lines 80-138).  The mutable visited set and
result vector are threaded as explicit state.  The mutable visiting set is
passed as the recursion-path parameter: the Rust code inserts the name
before the dependency loop and removes it immediately after, so on every
successful return the visiting set equals its value at entry, and on error
the whole resolution aborts, making the two presentations observationally
equal. -/

/-- The state mutated by resolve_package_recursive: the ordered result
vector and the fully-resolved (visited) set. -/
structure RState where
  resolved : List Package
  visited : List String
deriving Repr

/-- Number of store keys not yet on the current recursion path; decreases
every time the traversal descends into a package it just looked up. -/
def pathMeasure (store : Store) (path : List String) : Nat :=
  ((storeKeys store).filter (fun k => !(path.contains k))).length

theorem countP_lt_of_mem {α : Type} {l : List α} {P Q : α → Bool}
    (hPQ : ∀ x ∈ l, Q x = true → P x = true) (x : α) (hx : x ∈ l)
    (hPx : P x = true) (hQx : Q x = false) :
    l.countP Q < l.countP P := by
  induction l with
  | nil => cases hx
  | cons a l ih =>
    rw [List.countP_cons, List.countP_cons]
    have hmono : l.countP Q ≤ l.countP P :=
      List.countP_mono_left (fun y hy hQ => hPQ y (List.mem_cons_of_mem a hy) hQ)
    by_cases hax : a = x
    · subst hax
      simp [hPx, hQx]
      omega
    · have hx' : x ∈ l := by
        cases hx with
        | head => exact absurd rfl hax
        | tail _ h => exact h
      have hrec := ih (fun y hy hQ => hPQ y (List.mem_cons_of_mem a hy) hQ) hx'
      cases hQa : Q a with
      | false =>
        have : (if P a then 1 else 0) ≥ 0 := Nat.zero_le _
        cases hPa : P a <;> simp <;> omega
      | true =>
        have hPa : P a = true := hPQ a (List.mem_cons_self a l) hQa
        simp only [hPa]
        omega

theorem length_filter_lt_of_mem {α : Type} {l : List α} {P Q : α → Bool}
    (hPQ : ∀ x ∈ l, Q x = true → P x = true) (x : α) (hx : x ∈ l)
    (hPx : P x = true) (hQx : Q x = false) :
    (l.filter Q).length < (l.filter P).length := by
  rw [← List.countP_eq_length_filter, ← List.countP_eq_length_filter]
  exact countP_lt_of_mem hPQ x hx hPx hQx

theorem lookupStore_mem_keys {store : Store} {name : String} {p : Package}
    (h : lookupStore store name = some p) : name ∈ storeKeys store := by
  unfold lookupStore at h
  cases hf : store.find? (fun e => e.fst == name) with
  | none => rw [hf] at h; cases h
  | some e =>
    have hmem := List.mem_of_find?_eq_some hf
    have hkey := List.find?_some hf
    have heq : e.fst = name := by
      simpa using hkey
    subst heq
    exact List.mem_map_of_mem (fun x => x.fst) hmem

theorem pathMeasure_cons_lt {store : Store} {path : List String} {name : String}
    (hmem : name ∈ storeKeys store) (hnp : path.contains name = false) :
    pathMeasure store (name :: path) < pathMeasure store path := by
  unfold pathMeasure
  apply length_filter_lt_of_mem (x := name) _ hmem
  · simpa using hnp
  · simp
  · intro x _ hQ
    simp only [Bool.not_eq_true', List.contains_cons, Bool.or_eq_false_iff] at hQ
    simpa using hQ.2

mutual

/-- Manager::resolve_package_recursive (src/repository/manager.rs 92-138).
path is the visiting set (the names on the current recursion path). -/
def resolve_package_recursive (store : Store) (name : String)
    (path : List String) (st : RState) : Except Error RState :=
  if st.visited.contains name then .ok st
  else if hp : path.contains name then
    .error (.Dependency ("Circular dependency detected: " ++ name))
  else
    match hl : lookupStore store name with
    | none => .error (.PackageNotFound name)
    | some package =>
      match resolve_dependencies_loop store package.dependencies (name :: path) st with
      | .error e => .error e
      | .ok st1 =>
        if st1.resolved.any (fun p => p.name == package.name) then
          .ok ⟨st1.resolved, name :: st1.visited⟩
        else .ok ⟨st1.resolved ++ [package], name :: st1.visited⟩
termination_by (pathMeasure store path, 0)
decreasing_by
  exact Prod.Lex.left _ _
    (pathMeasure_cons_lt (lookupStore_mem_keys hl) (by simpa using hp))

/-- The for-loop over package.dependencies inside resolve_package_recursive
(src/repository/manager.rs 113-128): optional dependencies are skipped,
Package-kind dependencies are resolved recursively, and System / Runtime /
Build kinds are not resolved here. -/
def resolve_dependencies_loop (store : Store) (deps : List Dependency)
    (path : List String) (st : RState) : Except Error RState :=
  match deps with
  | [] => .ok st
  | dep :: rest =>
    if dep.optional then resolve_dependencies_loop store rest path st
    else
      match dep.dep_type with
      | .Package =>
        match resolve_package_recursive store dep.name path st with
        | .error e => .error e
        | .ok st1 => resolve_dependencies_loop store rest path st1
      | _ => resolve_dependencies_loop store rest path st
termination_by (pathMeasure store path, deps.length + 1)
decreasing_by
  · exact Prod.Lex.right _ (by simp [List.length_cons])
  · exact Prod.Lex.right _ (by simp [List.length_cons])
  · exact Prod.Lex.right _ (by simp [List.length_cons])
  · exact Prod.Lex.right _ (by simp [List.length_cons])

end

/-- The loop over requested names in Manager::resolve_packages
(src/repository/manager.rs 85-87). -/
def resolve_names_loop (store : Store) (names : List String) (st : RState) :
    Except Error RState :=
  match names with
  | [] => .ok st
  | n :: rest =>
    match resolve_package_recursive store n [] st with
    | .error e => .error e
    | .ok st' => resolve_names_loop store rest st'

/-- Manager::resolve_packages (src/repository/manager.rs 80-90). -/
def resolve_packages (store : Store) (package_names : List String) :
    Except Error (List Package) :=
  (resolve_names_loop store package_names ⟨[], []⟩).map (fun st => st.resolved)

/-! ## External-process and filesystem oracles

The engine only orchestrates external tools.  Process execution is
modelled by an oracle mapping a command line to its captured output;
filesystem writes are modelled by an oracle saying whether a write at a
given path succeeds.  Spawning a process is assumed to succeed (a spawn
IO error in the Rust code would propagate like any other IO error; no
claim distinguishes it from the modelled outcomes). -/

/-- An external command line: program and arguments. -/
structure Cmd where
  program : String
  args : List String
deriving DecidableEq, Repr

/-- Captured output of an external command (std::process::Output):
whether the exit status was success, plus stderr for error messages. -/
structure Output where
  success : Bool
  stderr : String
deriving DecidableEq, Repr

/-- The external environment seen by the installer and the manager. -/
structure ExecEnv where
  /-- Outcome of running a command via tokio::process::Command. -/
  exec : Cmd → Output
  /-- Whether the filesystem write (including parent-directory creation)
  at the given expanded path succeeds. -/
  writeOk : String → Bool
  /-- Current content of the user's profile file (empty when absent). -/
  profileContent : String
  /-- Whether writing the profile file succeeds. -/
  profileWriteOk : Bool
  /-- The current user name (USER / USERNAME, with fallback to the
  literal string user). -/
  username : String

/-! ## System dependencies (Manager::install_system_dependencies)

src/repository/manager.rs lines 168-197.  Every modelled operation
returns the list of external commands it issued together with its
result, so claims about call granularity are statable. -/

/-- Manager::install_system_dependencies: collect all System-kind
dependency names and install them with one batched pacman call; a
non-success exit aborts with CommandFailed. -/
def install_system_dependencies (env : ExecEnv) (package : Package) :
    List Cmd × Except Error Unit :=
  let system_deps := (package.get_dependencies .System).map (fun dep => dep.name)
  if system_deps.isEmpty then ([], .ok ())
  else
    let cmd : Cmd := ⟨"pacman", ["-S", "--needed", "--noconfirm"] ++ system_deps⟩
    let output := env.exec cmd
    if output.success then ([cmd], .ok ())
    else
      ([cmd], .error (.CommandFailed
        ("Failed to install system dependencies: " ++ output.stderr)))

/-! ## Post-install configuration (Installer::run_post_install)

src/package/installer.rs lines 360-401 and the helpers at 434-504.
Each operation is recorded in the trace as an attempt together with
whether it succeeded. -/

/-- One attempted post-install action, as recorded in the trace. -/
inductive PIAction where
  | RanCommand (command : String) (success : Bool)
  | ConfigWrite (path : String) (success : Bool)
  | ServiceEnable (service : String) (success : Bool)
  | GroupAdd (group : String) (success : Bool)
  | ProfileWrite (success : Bool)
deriving DecidableEq, Repr

/-- Installer::run_shell_command (installer.rs 414-423): sh -c command. -/
def run_shell_command (env : ExecEnv) (command : String) : Output :=
  env.exec ⟨"sh", ["-c", command]⟩

/-- The loop over post_install.commands (installer.rs 364-372): each
command is run; a non-success exit is only logged. -/
def run_commands_loop (env : ExecEnv) (commands : List String) : List PIAction :=
  commands.map (fun command => .RanCommand command (run_shell_command env command).success)

/-- Installer::create_config_file (installer.rs 434-445): expand the
path, create parent directories and write the content.  The two
fallible filesystem operations are modelled by the writeOk oracle; on
failure the function returns the IO error, which the caller propagates. -/
def create_config_file (env : ExecEnv) (path : String) (_content : String) :
    Except Error Unit :=
  if env.writeOk path then .ok () else .error (.Io ("write failed: " ++ path))

/-- The loop over post_install.config_files (installer.rs 375-379): the
question-mark on create_config_file makes any failure abort the loop
and propagate. -/
def config_files_loop (env : ExecEnv) (files : List (String × String)) :
    List PIAction × Except Error Unit :=
  match files with
  | [] => ([], .ok ())
  | (path, content) :: rest =>
    match create_config_file env path content with
    | .ok _ =>
      let (tr, res) := config_files_loop env rest
      (.ConfigWrite path true :: tr, res)
    | .error e => ([.ConfigWrite path false], .error e)

/-- Installer::enable_service (installer.rs 448-461): systemctl enable;
a non-success exit is only logged. -/
def enable_service (env : ExecEnv) (service : String) : PIAction :=
  .ServiceEnable service (env.exec ⟨"systemctl", ["enable", "--now", service]⟩).success

/-- Installer::add_user_to_group (installer.rs 464-481): usermod; a
non-success exit is only logged. -/
def add_user_to_group (env : ExecEnv) (group : String) : PIAction :=
  .GroupAdd group (env.exec ⟨"usermod", ["-a", "-G", group, env.username]⟩).success

/-- One export line as appended to the profile (installer.rs 495). -/
def exportLine (key value : String) : String :=
  "export " ++ key ++ "=\x22" ++ value ++ "\x22\n"

/-- Whether a string occurs as a substring (String::contains). -/
def containsSubstring (s sub : String) : Bool :=
  (s.splitOn sub).length > 1

/-- Installer::set_environment_variables (installer.rs 484-504): read
the profile, append each missing export line, write the profile back;
a failing write returns the IO error, which the caller propagates. -/
def set_environment_variables (env : ExecEnv) (env_vars : List (String × String)) :
    List PIAction × Except Error Unit :=
  let _newContent := env_vars.foldl
    (fun content kv =>
      let line := exportLine kv.fst kv.snd
      if containsSubstring content line then content else content ++ line)
    env.profileContent
  if env.profileWriteOk then ([.ProfileWrite true], .ok ())
  else ([.ProfileWrite false], .error (.Io "profile write failed"))

/-- Installer::run_post_install (installer.rs 360-401): run the optional
command list, then the config-file writes, then service enables, then
group adds, then the environment-variable update, in that order.
Failed commands, service enables and group adds are only logged; a
failed config-file write or profile write propagates immediately. -/
def run_post_install (env : ExecEnv) (post_install : PostInstall) :
    List PIAction × Except Error Unit :=
  let tr1 := match post_install.commands with
    | some commands => run_commands_loop env commands
    | none => []
  let cfg := match post_install.config_files with
    | some files => config_files_loop env files
    | none => ([], .ok ())
  match cfg.snd with
  | .error e => (tr1 ++ cfg.fst, .error e)
  | .ok _ =>
    let tr3 := match post_install.enable_services with
      | some services => services.map (enable_service env)
      | none => []
    let tr4 := match post_install.user_groups with
      | some groups => groups.map (add_user_to_group env)
      | none => []
    let envr := match post_install.environment with
      | some env_vars => set_environment_variables env env_vars
      | none => ([], .ok ())
    (tr1 ++ cfg.fst ++ tr3 ++ tr4 ++ envr.fst, envr.snd)

/-! ## Remote-binary installation (Installer::install_binary)

src/package/installer.rs lines 126-186.  The network is an oracle from
URL to response; the SHA-256 hex digest is an abstract function of the
downloaded bytes (the claims depend only on comparing digests, not on
the hash algorithm itself).  Filesystem actions are returned as a
trace. -/

/-- A filesystem action performed by install_binary, in order. -/
inductive FsEvent where
  | CreateDirAll (path : String)
  | WriteFile (path : String)
  | SetPermissions (path : String)
deriving DecidableEq, Repr

/-- An HTTP GET response: whether the status was 2xx, and the body. -/
structure NetResponse where
  statusSuccess : Bool
  body : List Nat
deriving DecidableEq, Repr

/-- The parent directory of a path (Path::parent), used only as the
argument recorded for create_dir_all. -/
def parentDir (path : String) : String :=
  String.intercalate "/" ((path.splitOn "/").dropLast)

/-- Installer::install_binary (installer.rs 126-186): download, verify
the checksum when one is supplied (failing before any filesystem
action on mismatch), create the parent directory, write the bytes, and
set the executable bit when requested. -/
def install_binary (net : String → NetResponse) (sha256hex : List Nat → String)
    (url : String) (checksum : Option String) (install_path : String)
    (executable : Bool) : List FsEvent × Except Error Unit :=
  let response := net url
  if !response.statusSuccess then
    ([], .error (.Network ("request failed: " ++ url)))
  else
    let content := response.body
    let verified : Except Error Unit :=
      match checksum with
      | some expected_checksum =>
        let actual_checksum := sha256hex content
        if actual_checksum ≠ expected_checksum then
          .error (.InstallationFailed
            ("Checksum mismatch. Expected: " ++ expected_checksum ++
              ", Got: " ++ actual_checksum))
        else .ok ()
      | none => .ok ()
    match verified with
    | .error e => ([], .error e)
    | .ok _ =>
      ([FsEvent.CreateDirAll (parentDir install_path),
        FsEvent.WriteFile install_path] ++
        (if executable then [FsEvent.SetPermissions install_path] else []),
       .ok ())

/-! ## Installation dispatch (Installer::install)

src/package/installer.rs lines 29-62.  The seven per-method strategies
are external-effect procedures; for the claims below only their
success or failure matters, so the dispatch consults a strategy oracle
mapping the installation method to its outcome, then runs the
post-install block (whose result propagates). -/

/-- Installer::install: run the strategy for the package's installation
method, then run_post_install when a post_install block is present. -/
def Installer.install (env : ExecEnv)
    (strategy : Installation → Except Error Unit) (package : Package) :
    List PIAction × Except Error Unit :=
  match strategy package.installation with
  | .error e => ([], .error e)
  | .ok _ =>
    match package.post_install with
    | some post_install => run_post_install env post_install
    | none => ([], .ok ())

/-! ## Install-status tracking (Manager) -/

/-- The in-memory installed_cache of Manager: name-keyed status map. -/
abbrev StatusMap := List (String × InstallStatus)

/-- HashMap.get on the status map. -/
def lookupStatus (m : StatusMap) (name : String) : Option InstallStatus :=
  (m.find? (fun e => e.fst == name)).map (fun e => e.snd)

/-- HashMap.insert on the status map (replaces any entry with the key). -/
def insertStatus (m : StatusMap) (name : String) (status : InstallStatus) :
    StatusMap :=
  m.filter (fun e => !(e.fst == name)) ++ [(name, status)]

/-- The per-package-list probe loop inside Manager::check_package_status
(manager.rs 226-245): the first pacman -Q success yields Installed with
the parsed version and installed_at unknown.  The probe oracle maps a
native package name to its queried version when installed. -/
def check_pacman_list (pacmanQ : String → Option String) (packages : List String) :
    InstallStatus :=
  match packages with
  | [] => .NotInstalled
  | pkg :: rest =>
    match pacmanQ pkg with
    | some version => .Installed version "unknown"
    | none => check_pacman_list pacmanQ rest

/-- Manager::check_package_status (manager.rs 221-253): only the Pacman
installation method is probed; every other method yields NotInstalled. -/
def check_package_status (pacmanQ : String → Option String) (package : Package) :
    InstallStatus :=
  match package.installation with
  | .Pacman packages _flags => check_pacman_list pacmanQ packages
  | _ => .NotInstalled

/-- Manager::install_package (manager.rs 141-166): short-circuit when
already installed and not forced; install system dependencies; run the
installer; only then record Installed in the status map. -/
def install_package (env : ExecEnv)
    (strategy : Installation → Except Error Unit)
    (installed_cache : StatusMap) (package : Package) (force : Bool)
    (now : String) : StatusMap × Except Error Unit :=
  if !force && (match lookupStatus installed_cache package.name with
      | some (.Installed _ _) => true
      | _ => false) then
    (installed_cache, .ok ())
  else
    match (install_system_dependencies env package).snd with
    | .error e => (installed_cache, .error e)
    | .ok _ =>
      match (Installer.install env strategy package).snd with
      | .error e => (installed_cache, .error e)
      | .ok _ =>
        (insertStatus installed_cache package.name
          (.Installed package.version now), .ok ())

/-! ## Metadata cache (src/cache/mod.rs)

Timestamps are seconds since the epoch; chrono's
Duration::num_hours of a nonnegative duration is seconds / 3600. -/

/-- One cached package snapshot (cache/mod.rs, CacheEntry). -/
structure CacheEntry where
  package : Package
  cached_at : Nat
  access_count : Nat
  last_accessed : Nat
deriving DecidableEq, Repr

/-- The persisted cache index (cache/mod.rs, CacheIndex). -/
structure CacheIndex where
  entries : List (String × CacheEntry)
  version : String
  created_at : Nat
deriving DecidableEq, Repr

/-- HashMap.get on the entry map. -/
def lookupEntry (entries : List (String × CacheEntry)) (name : String) :
    Option CacheEntry :=
  (entries.find? (fun e => e.fst == name)).map (fun e => e.snd)

/-- CacheManager::get_package (cache/mod.rs 53-72): a fresh entry is a
hit whose access_count is bumped and last_accessed refreshed (cached_at
untouched); an entry aged at least ttl_hours is removed and reported as
a miss. -/
def get_package (now ttl_hours : Nat) (index : CacheIndex) (name : String) :
    Option Package × CacheIndex :=
  match lookupEntry index.entries name with
  | some entry =>
    if (now - entry.cached_at) / 3600 < ttl_hours then
      (some entry.package,
       { index with entries := index.entries.map (fun e =>
           if e.fst == name then
             (e.fst, { entry with access_count := entry.access_count + 1,
                                  last_accessed := now })
           else e) })
    else
      (none, { index with entries :=
        index.entries.filter (fun e => !(e.fst == name)) })
  | none => (none, index)

/-- CacheManager::store_package (cache/mod.rs 74-88): insert a fresh
entry keyed by the package name (access_count 1, both timestamps now)
and persist the index. -/
def store_package (now : Nat) (index : CacheIndex) (package : Package) :
    CacheIndex :=
  { index with entries :=
      index.entries.filter (fun e => !(e.fst == package.name)) ++
        [(package.name, ⟨package, now, 1, now⟩)] }

/-- Cache statistics (cache/mod.rs, CacheStats / get_statistics).  The
floating-point hit_rate and cache_size estimates are not modelled; the
claims use only the entry count. -/
structure CacheStats where
  total_entries : Nat
  total_access_count : Nat
deriving DecidableEq, Repr

/-- CacheManager::get_statistics (cache/mod.rs 142-160), restricted to
its integer fields. -/
def get_statistics (index : CacheIndex) : CacheStats :=
  { total_entries := index.entries.length,
    total_access_count := (index.entries.map (fun e => e.snd.access_count)).sum }

/-! ## Resolver correctness: specification-side notions -/

/-- One mandatory Package-kind dependency edge: package m (as stored)
declares a non-optional Package-kind dependency named n. -/
def DepStep (store : Store) (m n : String) : Prop :=
  ∃ p, lookupStore store m = some p ∧ ∃ d ∈ p.dependencies,
    d.optional = false ∧ d.dep_type = DependencyType.Package ∧ d.name = n

/-- Acyclicity of the mandatory dependency graph, expressed as
well-foundedness of the is-a-dependency-of relation (every chain of
mandatory Package-kind edges is finite). -/
def AcyclicStore (store : Store) : Prop :=
  WellFounded (fun b a => DepStep store a b)

/-- Every mandatory Package-kind dependency of a stored package is
itself present in the store (the definition set is self-contained). -/
def ClosedStore (store : Store) : Prop :=
  ∀ n p, lookupStore store n = some p → ∀ d ∈ p.dependencies,
    d.optional = false → d.dep_type = DependencyType.Package →
    ∃ q, lookupStore store d.name = some q

/-- Every mandatory Package-kind dependency of every element of the
list is satisfied by some element strictly earlier in the list. -/
def OrderOK (L : List Package) : Prop :=
  ∀ l1 p l2, L = l1 ++ p :: l2 → ∀ d ∈ p.dependencies,
    d.optional = false → d.dep_type = DependencyType.Package →
    ∃ q ∈ l1, q.name = d.name

/-- Invariant of the resolver state threaded through the traversal. -/
structure Inv (store : Store) (st : RState) : Prop where
  mem_iff : ∀ n, n ∈ st.visited ↔ ∃ p ∈ st.resolved, p.name = n
  lookup_res : ∀ p ∈ st.resolved, lookupStore store p.name = some p
  nodup : (st.resolved.map Package.name).Nodup
  ordered : OrderOK st.resolved

/-- What a successful resolve_package_recursive call guarantees. -/
structure StepOut (store : Store) (root : String) (st st' : RState) : Prop where
  inv : Inv store st'
  resolved_ext : ∃ tl, st'.resolved = st.resolved ++ tl
  visited_ext : ∀ n, n ∈ st.visited → n ∈ st'.visited
  root_mem : ∃ p ∈ st'.resolved, p.name = root
  sound : ∀ p ∈ st'.resolved,
    p ∈ st.resolved ∨ Relation.ReflTransGen (DepStep store) root p.name

/-- What a successful resolve_dependencies_loop call guarantees. -/
structure DepsOut (store : Store) (deps : List Dependency) (st st' : RState) : Prop where
  inv : Inv store st'
  resolved_ext : ∃ tl, st'.resolved = st.resolved ++ tl
  visited_ext : ∀ n, n ∈ st.visited → n ∈ st'.visited
  all_mem : ∀ d ∈ deps, d.optional = false → d.dep_type = DependencyType.Package →
    ∃ p ∈ st'.resolved, p.name = d.name
  sound : ∀ p ∈ st'.resolved, p ∈ st.resolved ∨
    ∃ d ∈ deps, d.optional = false ∧ d.dep_type = DependencyType.Package ∧
      Relation.ReflTransGen (DepStep store) d.name p.name

theorem Inv.initial (store : Store) : Inv store ⟨[], []⟩ := by
  refine ⟨?_, ?_, ?_, ?_⟩
  · intro n; simp
  · intro p hp; simp at hp
  · simp
  · intro l1 p l2 heq
    exact absurd heq.symm (List.append_ne_nil_of_right_ne_nil l1 (by simp))

theorem OrderOK_append {L : List Package} {q : Package} (hL : OrderOK L)
    (hq : ∀ d ∈ q.dependencies, d.optional = false →
      d.dep_type = DependencyType.Package → ∃ r ∈ L, r.name = d.name) :
    OrderOK (L ++ [q]) := by
  intro l1 p l2 heq d hd hopt htype
  rcases List.append_eq_append_iff.mp heq with ⟨a', ha1, ha2⟩ | ⟨c', hc1, hc2⟩
  · cases a' with
    | nil =>
      simp at ha2
      obtain ⟨hpq, hl2⟩ := ha2
      subst hpq
      obtain ⟨r, hr, hrn⟩ := hq d hd hopt htype
      refine ⟨r, ?_, hrn⟩
      simp [ha1]
      exact hr
    | cons x xs =>
      have := congrArg List.length ha2
      simp at this
  · cases c' with
    | nil =>
      simp at hc2
      obtain ⟨hpq, hl2⟩ := hc2
      subst hpq
      obtain ⟨r, hr, hrn⟩ := hq d hd hopt htype
      simp at hc1
      exact ⟨r, by rw [← hc1]; exact hr, hrn⟩
    | cons p' c'' =>
      simp at hc2
      obtain ⟨hpp, hl2⟩ := hc2
      subst hpp
      exact hL l1 p c'' hc1 d hd hopt htype

/-- The combined invariant-preservation lemma for the two mutually
recursive traversal functions, by induction on the path measure. -/
theorem resolve_bundle (store : Store) (hwf : WFStore store) :
    ∀ k path, pathMeasure store path < k →
      ((∀ name st st', resolve_package_recursive store name path st = .ok st' →
          Inv store st → StepOut store name st st') ∧
       (∀ deps st st', resolve_dependencies_loop store deps path st = .ok st' →
          Inv store st → DepsOut store deps st st')) := by
  intro k
  induction k with
  | zero => intro path h; omega
  | succ k ih =>
    intro path hpath
    have hone : ∀ name st st', resolve_package_recursive store name path st = .ok st' →
        Inv store st → StepOut store name st st' := by
      intro name st st' hok hinv
      rw [resolve_package_recursive.eq_def] at hok
      split at hok
      · rename_i hvis
        cases hok
        refine ⟨hinv, ⟨[], by simp⟩, fun n h => h, ?_, fun p hp => Or.inl hp⟩
        exact (hinv.mem_iff name).mp (by simpa using hvis)
      · split at hok
        · simp at hok
        · rename_i hvis hp
          split at hok
          · simp at hok
          · rename_i package hl
            have hpcont : path.contains name = false := by simpa using hp
            have hlt : pathMeasure store (name :: path) < k := by
              have := pathMeasure_cons_lt (lookupStore_mem_keys hl) hpcont
              omega
            have hpname : package.name = name := hwf name package hl
            split at hok
            · simp at hok
            · rename_i st1 hdl
              have hD := (ih (name :: path) hlt).2 package.dependencies st st1 hdl hinv
              split at hok
              · rename_i hany
                cases hok
                obtain ⟨pw, hpw, hpwn⟩ := by
                  simpa using List.any_eq_true.mp hany
                refine ⟨?_, hD.resolved_ext, ?_, ?_, ?_⟩
                · refine ⟨?_, hD.inv.lookup_res, hD.inv.nodup, hD.inv.ordered⟩
                  intro n
                  constructor
                  · intro hn
                    rcases List.mem_cons.mp hn with hn | hn
                    · subst hn
                      exact ⟨pw, hpw, by rw [hpwn, hpname]⟩
                    · exact (hD.inv.mem_iff n).mp hn
                  · intro hex
                    exact List.mem_cons_of_mem _ ((hD.inv.mem_iff n).mpr hex)
                · intro n hn
                  exact List.mem_cons_of_mem _ (hD.visited_ext n hn)
                · exact ⟨pw, hpw, by rw [hpwn, hpname]⟩
                · intro p hpmem
                  rcases hD.sound p hpmem with hold | ⟨d, hd, hdopt, hdtype, hreach⟩
                  · exact Or.inl hold
                  · refine Or.inr (Relation.ReflTransGen.head ?_ hreach)
                    exact ⟨package, hl, d, hd, hdopt, hdtype, rfl⟩
              · rename_i hany
                cases hok
                have hnotin : ∀ p ∈ st1.resolved, p.name ≠ package.name := by
                  intro p hpmem
                  have := List.any_eq_false.mp (Bool.not_eq_true _ ▸ hany) p hpmem
                  simpa using this
                obtain ⟨tl, htl⟩ := hD.resolved_ext
                refine ⟨?_, ⟨tl ++ [package], by simp [htl]⟩, ?_, ?_, ?_⟩
                · refine ⟨?_, ?_, ?_, ?_⟩
                  · intro n
                    constructor
                    · intro hn
                      rcases List.mem_cons.mp hn with hn | hn
                      · subst hn
                        exact ⟨package, by simp, hpname⟩
                      · obtain ⟨p, hpmem, hpn⟩ := (hD.inv.mem_iff n).mp hn
                        exact ⟨p, by simp [hpmem], hpn⟩
                    · rintro ⟨p, hpmem, hpn⟩
                      rcases List.mem_append.mp hpmem with hpmem | hpmem
                      · exact List.mem_cons_of_mem _
                          ((hD.inv.mem_iff n).mpr ⟨p, hpmem, hpn⟩)
                      · simp at hpmem
                        subst hpmem
                        rw [← hpn, hpname]
                        exact List.mem_cons_self _ _
                  · intro p hpmem
                    rcases List.mem_append.mp hpmem with hpmem | hpmem
                    · exact hD.inv.lookup_res p hpmem
                    · simp at hpmem
                      subst hpmem
                      rw [hpname]
                      exact hl
                  · rw [List.map_append]
                    rw [List.nodup_append]
                    refine ⟨hD.inv.nodup, by simp, ?_⟩
                    intro x hx hx'
                    simp at hx'
                    obtain ⟨p, hpmem, hpn⟩ := List.mem_map.mp hx
                    exact hnotin p hpmem (by rw [hpn, hx'])
                  · exact OrderOK_append hD.inv.ordered (fun d hd hdopt hdtype =>
                      hD.all_mem d hd hdopt hdtype)
                · intro n hn
                  exact List.mem_cons_of_mem _ (hD.visited_ext n hn)
                · exact ⟨package, by simp, hpname⟩
                · intro p hpmem
                  rcases List.mem_append.mp hpmem with hpmem | hpmem
                  · rcases hD.sound p hpmem with hold | ⟨d, hd, hdopt, hdtype, hreach⟩
                    · exact Or.inl hold
                    · refine Or.inr (Relation.ReflTransGen.head ?_ hreach)
                      exact ⟨package, hl, d, hd, hdopt, hdtype, rfl⟩
                  · simp at hpmem
                    subst hpmem
                    refine Or.inr ?_
                    rw [hpname]
    have hdeps : ∀ deps st st', resolve_dependencies_loop store deps path st = .ok st' →
        Inv store st → DepsOut store deps st st' := by
      intro deps
      induction deps with
      | nil =>
        intro st st' hok hinv
        rw [resolve_dependencies_loop.eq_def] at hok
        dsimp only at hok
        cases hok
        exact ⟨hinv, ⟨[], by simp⟩, fun n h => h,
          fun d hd => absurd hd (List.not_mem_nil d), fun p hp => Or.inl hp⟩
      | cons dep rest iht =>
        intro st st' hok hinv
        rw [resolve_dependencies_loop.eq_def] at hok
        dsimp only at hok
        split at hok
        · rename_i hoptT
          have hR := iht st st' hok hinv
          refine ⟨hR.inv, hR.resolved_ext, hR.visited_ext, ?_, ?_⟩
          · intro d hd hdopt hdtype
            rcases List.mem_cons.mp hd with hd | hd
            · subst hd
              rw [hoptT] at hdopt
              cases hdopt
            · exact hR.all_mem d hd hdopt hdtype
          · intro p hp
            rcases hR.sound p hp with hold | ⟨d, hd, hrest⟩
            · exact Or.inl hold
            · exact Or.inr ⟨d, List.mem_cons_of_mem _ hd, hrest⟩
        · rename_i hoptF
          have hoptF' : dep.optional = false := by simpa using hoptF
          split at hok
          · -- dep_type = Package
            rename_i hty
            split at hok
            · simp at hok
            · rename_i st1 hstep
              have hS := hone dep.name st st1 hstep hinv
              have hR := iht st1 st' hok hS.inv
              obtain ⟨tl1, htl1⟩ := hS.resolved_ext
              obtain ⟨tl2, htl2⟩ := hR.resolved_ext
              refine ⟨hR.inv, ⟨tl1 ++ tl2, by simp [htl2, htl1]⟩, ?_, ?_, ?_⟩
              · intro n hn
                exact hR.visited_ext n (hS.visited_ext n hn)
              · intro d hd hdopt hdtype
                rcases List.mem_cons.mp hd with hd | hd
                · subst hd
                  obtain ⟨p, hpmem, hpn⟩ := hS.root_mem
                  exact ⟨p, by rw [htl2]; exact List.mem_append_left _ hpmem, hpn⟩
                · exact hR.all_mem d hd hdopt hdtype
              · intro p hp
                rcases hR.sound p hp with hmid | ⟨d, hd, hdo, hdt, hreach⟩
                · rcases hS.sound p hmid with hold | hreach
                  · exact Or.inl hold
                  · exact Or.inr ⟨dep, List.mem_cons_self _ _, hoptF', hty, hreach⟩
                · exact Or.inr ⟨d, List.mem_cons_of_mem _ hd, hdo, hdt, hreach⟩
          · -- dep_type ≠ Package
            rename_i hty
            have hR := iht st st' hok hinv
            refine ⟨hR.inv, hR.resolved_ext, hR.visited_ext, ?_, ?_⟩
            · intro d hd hdopt hdtype
              rcases List.mem_cons.mp hd with hd | hd
              · subst hd
                exact (hty hdtype).elim
              · exact hR.all_mem d hd hdopt hdtype
            · intro p hp
              rcases hR.sound p hp with hold | ⟨d, hd, hrest⟩
              · exact Or.inl hold
              · exact Or.inr ⟨d, List.mem_cons_of_mem _ hd, hrest⟩
    exact ⟨hone, hdeps⟩

theorem wf_not_self {α : Type} {r : α → α → Prop} (h : WellFounded r) (a : α) :
    ¬ r a a :=
  h.induction (C := fun x => ¬ r x x) a (fun x ih hxx => ih x hxx hxx)

theorem acyclic_no_self {store : Store} (hacyc : AcyclicStore store) (a : String) :
    ¬ Relation.TransGen (DepStep store) a a := by
  intro h
  have h2 : Relation.TransGen (fun b a => DepStep store a b) a a :=
    Relation.transGen_swap.mp h
  exact wf_not_self hacyc.transGen a h2

/-- On a closed acyclic store, a traversal rooted at a present name
cannot fail, whatever the current state, provided every name on the
current path is a strict ancestor of the root. -/
theorem resolve_deps_success (store : Store) (hclosed : ClosedStore store) (x : String)
    (IH : ∀ y, DepStep store x y →
      ((∃ p, lookupStore store y = some p) →
       ∀ path st, (∀ z ∈ path, Relation.TransGen (DepStep store) z y) →
       ∃ st', resolve_package_recursive store y path st = .ok st'))
    (package : Package) (hl : lookupStore store x = some package)
    (path : List String)
    (hpath : ∀ z ∈ path, Relation.TransGen (DepStep store) z x) :
    ∀ deps, (∀ d ∈ deps, d ∈ package.dependencies) →
    ∀ st, ∃ st', resolve_dependencies_loop store deps (x :: path) st = .ok st' := by
  intro deps
  induction deps with
  | nil =>
    intro _ st
    exact ⟨st, by rw [resolve_dependencies_loop.eq_def]⟩
  | cons dep rest iht =>
    intro hsub st
    rw [resolve_dependencies_loop.eq_def]
    dsimp only
    by_cases hopt : dep.optional = true
    · simp only [hopt, if_true]
      exact iht (fun d hd => hsub d (List.mem_cons_of_mem _ hd)) st
    · have hopt' : dep.optional = false := by simpa using hopt
      rw [if_neg (by simp [hopt'])]
      cases hty : dep.dep_type with
      | Package =>
        dsimp only
        have hdmem : dep ∈ package.dependencies := hsub dep (List.mem_cons_self _ _)
        have hdepstep : DepStep store x dep.name :=
          ⟨package, hl, dep, hdmem, hopt', hty, rfl⟩
        have hlookup : ∃ q, lookupStore store dep.name = some q :=
          hclosed x package hl dep hdmem hopt' hty
        have hpath' : ∀ z ∈ x :: path, Relation.TransGen (DepStep store) z dep.name := by
          intro z hz
          rcases List.mem_cons.mp hz with hz | hz
          · subst hz
            exact Relation.TransGen.single hdepstep
          · exact Relation.TransGen.tail (hpath z hz) hdepstep
        obtain ⟨st1, hst1⟩ := IH dep.name hdepstep hlookup (x :: path) st hpath'
        rw [hst1]
        dsimp only
        exact iht (fun d hd => hsub d (List.mem_cons_of_mem _ hd)) st1
      | System =>
        dsimp only
        exact iht (fun d hd => hsub d (List.mem_cons_of_mem _ hd)) st
      | Runtime =>
        dsimp only
        exact iht (fun d hd => hsub d (List.mem_cons_of_mem _ hd)) st
      | Build =>
        dsimp only
        exact iht (fun d hd => hsub d (List.mem_cons_of_mem _ hd)) st

theorem resolve_success (store : Store) (hacyc : AcyclicStore store)
    (hclosed : ClosedStore store) :
    ∀ name, (∃ p, lookupStore store name = some p) →
    ∀ path st, (∀ x ∈ path, Relation.TransGen (DepStep store) x name) →
    ∃ st', resolve_package_recursive store name path st = .ok st' := by
  intro name
  refine hacyc.induction
    (C := fun name => (∃ p, lookupStore store name = some p) →
      ∀ path st, (∀ x ∈ path, Relation.TransGen (DepStep store) x name) →
      ∃ st', resolve_package_recursive store name path st = .ok st') name ?_
  intro x IH hx path st hpath
  rw [resolve_package_recursive.eq_def]
  by_cases hvis : st.visited.contains x = true
  · rw [if_pos hvis]
    exact ⟨st, rfl⟩
  · rw [if_neg hvis]
    have hxp : ¬ path.contains x = true := by
      intro hc
      exact acyclic_no_self hacyc x (hpath x (by simpa using hc))
    rw [dif_neg hxp]
    split
    · rename_i heq
      obtain ⟨package, hl⟩ := hx
      rw [hl] at heq
      cases heq
    · rename_i pkg heq
      obtain ⟨st1, hst1⟩ :=
        resolve_deps_success store hclosed x IH pkg heq path hpath
          pkg.dependencies (fun d hd => hd) st
      rw [hst1]
      dsimp only
      by_cases hany : (st1.resolved.any fun p => p.name == pkg.name) = true
      · rw [if_pos hany]
        exact ⟨_, rfl⟩
      · rw [if_neg hany]
        exact ⟨_, rfl⟩

/-- Invariants and soundness for the loop over the requested names. -/
theorem resolve_names_loop_out (store : Store) (hwf : WFStore store) :
    ∀ names st st', resolve_names_loop store names st = .ok st' → Inv store st →
      Inv store st' ∧ (∃ tl, st'.resolved = st.resolved ++ tl) ∧
      (∀ n ∈ names, ∃ p ∈ st'.resolved, p.name = n) ∧
      (∀ p ∈ st'.resolved, p ∈ st.resolved ∨
        ∃ n ∈ names, Relation.ReflTransGen (DepStep store) n p.name) := by
  intro names
  induction names with
  | nil =>
    intro st st' hok hinv
    simp only [resolve_names_loop] at hok
    cases hok
    exact ⟨hinv, ⟨[], by simp⟩, by simp, fun p hp => Or.inl hp⟩
  | cons n rest iht =>
    intro st st' hok hinv
    simp only [resolve_names_loop] at hok
    split at hok
    · cases hok
    · rename_i st1 hstep
      have hS := (resolve_bundle store hwf (pathMeasure store [] + 1) []
        (Nat.lt_succ_self _)).1 n st st1 hstep hinv
      have hR := iht st1 st' hok hS.inv
      obtain ⟨tl1, htl1⟩ := hS.resolved_ext
      obtain ⟨tl2, htl2⟩ := hR.2.1
      refine ⟨hR.1, ⟨tl1 ++ tl2, by simp [htl2, htl1]⟩, ?_, ?_⟩
      · intro m hm
        rcases List.mem_cons.mp hm with hm | hm
        · subst hm
          obtain ⟨p, hpmem, hpn⟩ := hS.root_mem
          exact ⟨p, by rw [htl2]; exact List.mem_append_left _ hpmem, hpn⟩
        · exact hR.2.2.1 m hm
      · intro p hp
        rcases hR.2.2.2 p hp with hmid | ⟨m, hm, hreach⟩
        · rcases hS.sound p hmid with hold | hreach
          · exact Or.inl hold
          · exact Or.inr ⟨n, List.mem_cons_self _ _, hreach⟩
        · exact Or.inr ⟨m, List.mem_cons_of_mem _ hm, hreach⟩

theorem resolve_names_loop_success (store : Store) (hacyc : AcyclicStore store)
    (hclosed : ClosedStore store) :
    ∀ names st, (∀ n ∈ names, ∃ p, lookupStore store n = some p) →
    ∃ st', resolve_names_loop store names st = .ok st' := by
  intro names
  induction names with
  | nil => intro st _; exact ⟨st, rfl⟩
  | cons n rest iht =>
    intro st hnames
    obtain ⟨st1, h1⟩ := resolve_success store hacyc hclosed n
      (hnames n (List.mem_cons_self _ _)) [] st (by simp)
    simp only [resolve_names_loop]
    rw [h1]
    exact iht st1 (fun m hm => hnames m (List.mem_cons_of_mem _ hm))

theorem lookupStore_mem {store : Store} {x : String} {p : Package}
    (h : lookupStore store x = some p) : (x, p) ∈ store := by
  unfold lookupStore at h
  cases hf : store.find? (fun e => e.fst == x) with
  | none => rw [hf] at h; cases h
  | some e =>
    rw [hf] at h
    simp at h
    have hkey := List.find?_some hf
    have hm := List.mem_of_find?_eq_some hf
    have hfst : e.fst = x := by simpa using hkey
    cases e with
    | mk a b =>
      simp at hfst h
      subst hfst
      subst h
      exact hm

/-- C2: for every acyclic, self-contained, well-formed definition set
and every requested-name sequence whose names all exist, resolve
succeeds and returns a list that contains each requested package and
every transitively reachable mandatory Package-kind dependency exactly
once, with every such dependency appearing before its dependent. -/
theorem resolve_packages_correct (store : Store) (names : List String)
    (hwf : WFStore store) (hacyc : AcyclicStore store) (hclosed : ClosedStore store)
    (hnames : ∀ n ∈ names, ∃ p, lookupStore store n = some p) :
    ∃ L, resolve_packages store names = .ok L ∧
      (∀ n ∈ names, ∀ p, lookupStore store n = some p → p ∈ L) ∧
      (∀ n, (∃ r ∈ names, Relation.ReflTransGen (DepStep store) r n) →
        (L.map Package.name).count n = 1) ∧
      OrderOK L := by
  obtain ⟨stf, hok⟩ := resolve_names_loop_success store hacyc hclosed names ⟨[], []⟩ hnames
  have hout := resolve_names_loop_out store hwf names ⟨[], []⟩ stf hok (Inv.initial store)
  refine ⟨stf.resolved, ?_, ?_, ?_, hout.1.ordered⟩
  · unfold resolve_packages
    rw [hok]
    rfl
  · intro n hn p hp
    obtain ⟨q, hq, hqn⟩ := hout.2.2.1 n hn
    have hlq := hout.1.lookup_res q hq
    rw [hqn, hp] at hlq
    injection hlq with hpq
    rw [hpq]
    exact hq
  · rintro n ⟨r, hr, hreach⟩
    have hmem : ∃ p ∈ stf.resolved, p.name = n := by
      induction hreach with
      | refl => exact hout.2.2.1 r hr
      | tail hab hbc ih =>
        obtain ⟨q, hq, hqn⟩ := ih
        obtain ⟨pp, hpl, d, hd, hdo, hdt, hdn⟩ := hbc
        have hql := hout.1.lookup_res q hq
        rw [hqn, hpl] at hql
        injection hql with hppq
        have hd' : d ∈ q.dependencies := by rw [hppq] at hd; exact hd
        obtain ⟨s, t, hst⟩ := List.append_of_mem hq
        obtain ⟨q2, hq2, hq2n⟩ := hout.1.ordered s q t hst d hd' hdo hdt
        refine ⟨q2, ?_, by rw [hq2n, hdn]⟩
        rw [hst]
        exact List.mem_append_left _ hq2
    obtain ⟨p, hp, hpn⟩ := hmem
    exact List.count_eq_one_of_mem hout.1.nodup (List.mem_map.mpr ⟨p, hp, hpn⟩)

/-- C7: a package appears in a successfully resolved list only when it
is a requested name or reachable from one via non-optional
Package-kind dependency edges; optional dependencies are never pulled
in transitively. -/
theorem resolve_packages_sound (store : Store) (names : List String) (L : List Package)
    (hwf : WFStore store) (hok : resolve_packages store names = .ok L) :
    ∀ p ∈ L, ∃ r ∈ names, Relation.ReflTransGen (DepStep store) r p.name := by
  unfold resolve_packages at hok
  cases hloop : resolve_names_loop store names ⟨[], []⟩ with
  | error e => rw [hloop] at hok; cases hok
  | ok stf =>
    rw [hloop] at hok
    injection hok with hL
    subst hL
    have hout := resolve_names_loop_out store hwf names ⟨[], []⟩ stf hloop
      (Inv.initial store)
    intro p hp
    rcases hout.2.2.2 p hp with h | h
    · simp at h
    · exact h

/-- C5: a two-package mandatory dependency cycle makes resolve fail
with a Dependency error naming a package on the cycle, and a missing
requested name fails with PackageNotFound. -/
theorem resolve_cycle_and_missing :
    (∀ (store : Store) (A B : String) (pA pB : Package) (dA dB : Dependency),
      A ≠ B →
      lookupStore store A = some pA → lookupStore store B = some pB →
      pA.dependencies = [dA] → dA.name = B → dA.optional = false →
      dA.dep_type = DependencyType.Package →
      pB.dependencies = [dB] → dB.name = A → dB.optional = false →
      dB.dep_type = DependencyType.Package →
      resolve_packages store [A] =
        .error (.Dependency ("Circular dependency detected: " ++ A))) ∧
    (∀ (store : Store) (X : String), lookupStore store X = none →
      resolve_packages store [X] = .error (.PackageNotFound X)) := by
  constructor
  · intro store A B pA pB dA dB hAB hlA hlB hdepsA hdAn hdAo hdAt hdepsB hdBn hdBo hdBt
    have hcyc : resolve_package_recursive store A [B, A] ⟨[], []⟩ =
        .error (.Dependency ("Circular dependency detected: " ++ A)) := by
      rw [resolve_package_recursive.eq_def]
      rw [if_neg (by simp)]
      rw [dif_pos (by simp)]
    have hloopB : resolve_dependencies_loop store pB.dependencies [B, A] ⟨[], []⟩ =
        .error (.Dependency ("Circular dependency detected: " ++ A)) := by
      rw [hdepsB, resolve_dependencies_loop.eq_def]
      dsimp only
      rw [if_neg (by simp [hdBo])]
      rw [hdBt]
      dsimp only
      rw [hdBn, hcyc]
    have hB : resolve_package_recursive store B [A] ⟨[], []⟩ =
        .error (.Dependency ("Circular dependency detected: " ++ A)) := by
      rw [resolve_package_recursive.eq_def]
      rw [if_neg (by simp)]
      rw [dif_neg (by simp; exact fun h => hAB h.symm)]
      split
      · rename_i heq
        rw [hlB] at heq
        cases heq
      · rename_i pkg heq
        rw [hlB] at heq
        injection heq with hh
        subst hh
        rw [hloopB]
    have hloopA : resolve_dependencies_loop store pA.dependencies [A] ⟨[], []⟩ =
        .error (.Dependency ("Circular dependency detected: " ++ A)) := by
      rw [hdepsA, resolve_dependencies_loop.eq_def]
      dsimp only
      rw [if_neg (by simp [hdAo])]
      rw [hdAt]
      dsimp only
      rw [hdAn, hB]
    have hmain : resolve_package_recursive store A [] ⟨[], []⟩ =
        .error (.Dependency ("Circular dependency detected: " ++ A)) := by
      rw [resolve_package_recursive.eq_def]
      rw [if_neg (by simp)]
      rw [dif_neg (by simp)]
      split
      · rename_i heq
        rw [hlA] at heq
        cases heq
      · rename_i pkg heq
        rw [hlA] at heq
        injection heq with hh
        subst hh
        rw [hloopA]
    simp only [resolve_packages, resolve_names_loop]
    rw [hmain]
    rfl
  · intro store X hX
    have hmain : resolve_package_recursive store X [] ⟨[], []⟩ =
        .error (.PackageNotFound X) := by
      rw [resolve_package_recursive.eq_def]
      rw [if_neg (by simp)]
      rw [dif_neg (by simp)]
      split
      · rfl
      · rename_i pkg heq
        rw [hX] at heq
        cases heq
    simp only [resolve_packages, resolve_names_loop]
    rw [hmain]
    rfl

/-! ## Concrete witness data for the resolver claims -/

/-- Empty metadata block for witness packages. -/
def mdW : PackageMetadata := ⟨none, none, none, none, none, none, none⟩

/-- A mandatory Package-kind dependency on b. -/
def depPkgW : Dependency := ⟨"b", none, false, none, .Package⟩

/-- Witness package a, depending on b. -/
def pkgAW : Package :=
  ⟨"a", "1.0", "demo package a", none, [], [depPkgW], .Pacman ["a"] none, none, mdW⟩

/-- Witness package b, with no dependencies. -/
def pkgBW : Package :=
  ⟨"b", "1.0", "demo package b", none, [], [], .Pacman ["b"] none, none, mdW⟩

/-- A two-package witness store: a depends on b. -/
def storeW : Store := [("a", pkgAW), ("b", pkgBW)]

theorem wfW : WFStore storeW := by
  intro n p h
  have hm := lookupStore_mem h
  simp [storeW] at hm
  rcases hm with ⟨h1, h2⟩ | ⟨h1, h2⟩
  · subst h1; subst h2; rfl
  · subst h1; subst h2; rfl

theorem closedW : ClosedStore storeW := by
  intro n p h d hd hdo hdt
  have hm := lookupStore_mem h
  simp [storeW] at hm
  rcases hm with ⟨h1, h2⟩ | ⟨h1, h2⟩
  · subst h2
    simp [pkgAW] at hd
    subst hd
    exact ⟨pkgBW, by decide⟩
  · subst h2
    simp [pkgBW] at hd

theorem acyclicW : AcyclicStore storeW := by
  have accB : Acc (fun b a => DepStep storeW a b) "b" := by
    constructor
    intro y hy
    obtain ⟨p, hl, d, hd, hdo, hdt, hdn⟩ := hy
    have h2 : lookupStore storeW "b" = some pkgBW := by decide
    rw [h2] at hl
    injection hl with hp
    subst hp
    simp [pkgBW] at hd
  constructor
  intro x
  constructor
  intro y hy
  obtain ⟨p, hl, d, hd, hdo, hdt, hdn⟩ := hy
  have hm := lookupStore_mem hl
  simp [storeW] at hm
  rcases hm with ⟨h1, h2⟩ | ⟨h1, h2⟩
  · subst h2
    simp [pkgAW] at hd
    subst hd
    have hyb : y = "b" := by rw [← hdn]; rfl
    subst hyb
    exact accB
  · subst h2
    simp [pkgBW] at hd

/-- Evaluation of the resolver on the witness store, proved by symbolic
unfolding (the traversal is defined by well-founded recursion, so the
kernel cannot evaluate it directly). -/
theorem hevalW : resolve_packages storeW ["a"] = .ok [pkgBW, pkgAW] := by
  have e1 : resolve_dependencies_loop storeW [] ["b", "a"] ⟨[], []⟩ = .ok ⟨[], []⟩ := by
    rw [resolve_dependencies_loop.eq_def]
  have e2 : resolve_package_recursive storeW "b" ["a"] ⟨[], []⟩ = .ok ⟨[pkgBW], ["b"]⟩ := by
    rw [resolve_package_recursive.eq_def]
    rw [if_neg (by decide), dif_neg (by decide)]
    split
    · rename_i heq
      exact absurd heq (by decide)
    · rename_i pkg heq
      have h2 : lookupStore storeW "b" = some pkgBW := by decide
      rw [h2] at heq
      injection heq with hh
      subst hh
      rw [show pkgBW.dependencies = [] from rfl, e1]
      dsimp only
      rw [if_neg (by decide)]
      rfl
  have e1b : resolve_dependencies_loop storeW [] ["a"] ⟨[pkgBW], ["b"]⟩ =
      .ok ⟨[pkgBW], ["b"]⟩ := by
    rw [resolve_dependencies_loop.eq_def]
  have e4 : resolve_dependencies_loop storeW [depPkgW] ["a"] ⟨[], []⟩ =
      .ok ⟨[pkgBW], ["b"]⟩ := by
    rw [resolve_dependencies_loop.eq_def]
    dsimp only
    rw [if_neg (by decide)]
    rw [show depPkgW.dep_type = DependencyType.Package from rfl]
    dsimp only
    rw [show depPkgW.name = "b" from rfl, e2]
    dsimp only
    exact e1b
  have e5 : resolve_package_recursive storeW "a" [] ⟨[], []⟩ =
      .ok ⟨[pkgBW, pkgAW], ["a", "b"]⟩ := by
    rw [resolve_package_recursive.eq_def]
    rw [if_neg (by decide), dif_neg (by decide)]
    split
    · rename_i heq
      exact absurd heq (by decide)
    · rename_i pkg heq
      have h2 : lookupStore storeW "a" = some pkgAW := by decide
      rw [h2] at heq
      injection heq with hh
      subst hh
      rw [show pkgAW.dependencies = [depPkgW] from rfl, e4]
      dsimp only
      rw [if_neg (by decide)]
      rfl
  simp only [resolve_packages, resolve_names_loop]
  rw [e5]
  rfl

/-! ## Association-list lemmas shared by the cache and the status map -/

theorem assoc_find?_insert_self {β : Type} (l : List (String × β)) (k : String) (v : β) :
    ((l.filter (fun e => !(e.fst == k)) ++ [(k, v)]).find? (fun e => e.fst == k)) =
      some (k, v) := by
  induction l with
  | nil => simp
  | cons e l ih =>
    by_cases h : e.fst = k
    · rw [List.filter_cons, if_neg (by simp [h])]
      exact ih
    · rw [List.filter_cons, if_pos (by simp [h]), List.cons_append,
        List.find?_cons_of_neg _ (by simp [h])]
      exact ih

theorem assoc_find?_insert_other {β : Type} (l : List (String × β)) (k : String) (v : β)
    (m : String) (hmk : m ≠ k) :
    ((l.filter (fun e => !(e.fst == k)) ++ [(k, v)]).find? (fun e => e.fst == m)) =
      l.find? (fun e => e.fst == m) := by
  induction l with
  | nil => simp [Ne.symm hmk]
  | cons e l ih =>
    by_cases h : e.fst = k
    · rw [List.filter_cons, if_neg (by simp [h]), ih,
        List.find?_cons_of_neg _ (by simp [h, Ne.symm hmk])]
    · by_cases hm : e.fst = m
      · rw [List.filter_cons, if_pos (by simp [h]), List.cons_append,
          List.find?_cons_of_pos _ (by simp [hm]),
          List.find?_cons_of_pos _ (by simp [hm])]
      · rw [List.filter_cons, if_pos (by simp [h]), List.cons_append,
          List.find?_cons_of_neg _ (by simp [hm]),
          List.find?_cons_of_neg _ (by simp [hm])]
        exact ih

theorem assoc_find?_filter_out {β : Type} (l : List (String × β)) (k : String) :
    ((l.filter (fun e => !(e.fst == k))).find? (fun e => e.fst == k)) = none := by
  rw [List.find?_eq_none]
  intro x hx
  have := (List.mem_filter.mp hx).2
  simp at this
  simp [this]

theorem assoc_find?_map_update_self {β : Type} (l : List (String × β)) (k : String)
    (w : β) (e0 : String × β) (hfind : l.find? (fun e => e.fst == k) = some e0) :
    ((l.map (fun e => if e.fst == k then (e.fst, w) else e)).find?
      (fun e => e.fst == k)) = some (k, w) := by
  induction l with
  | nil => cases hfind
  | cons e l ih =>
    by_cases h : e.fst = k
    · rw [List.map_cons, if_pos (by simp [h]),
        List.find?_cons_of_pos _ (by simp [h]), h]
    · rw [List.find?_cons_of_neg _ (by simp [h])] at hfind
      rw [List.map_cons, if_neg (by simp [h]),
        List.find?_cons_of_neg _ (by simp [h])]
      exact ih hfind

theorem assoc_find?_map_update_other {β : Type} (l : List (String × β)) (k : String)
    (w : β) (m : String) (hmk : m ≠ k) :
    ((l.map (fun e => if e.fst == k then (e.fst, w) else e)).find?
      (fun e => e.fst == m)) = l.find? (fun e => e.fst == m) := by
  induction l with
  | nil => rfl
  | cons e l ih =>
    by_cases h : e.fst = k
    · rw [List.map_cons, if_pos (by simp [h]),
        List.find?_cons_of_neg _ (by simp [h, Ne.symm hmk]),
        List.find?_cons_of_neg _ (by simp [h, Ne.symm hmk])]
      exact ih
    · by_cases hm : e.fst = m
      · rw [List.map_cons, if_neg (by simp [h]),
          List.find?_cons_of_pos _ (by simp [hm]),
          List.find?_cons_of_pos _ (by simp [hm])]
      · rw [List.map_cons, if_neg (by simp [h]),
          List.find?_cons_of_neg _ (by simp [hm]),
          List.find?_cons_of_neg _ (by simp [hm])]
        exact ih

/-! ## Claim theorems: cache, status map, status probe, binary install,
system dependencies -/

/-- C3: put followed by an immediate get hits and returns the stored
package; a get at least TTL hours after the put misses, removes the
entry, and the entry count reported by the statistics drops by one. -/
theorem cache_put_get_ttl (index : CacheIndex) (p : Package) (t t' ttl_hours : Nat)
    (httl : 0 < ttl_hours) (hage : ttl_hours ≤ (t' - t) / 3600) :
    (get_package t ttl_hours (store_package t index p) p.name).fst = some p ∧
    (get_package t' ttl_hours (store_package t index p) p.name).fst = none ∧
    lookupEntry (get_package t' ttl_hours (store_package t index p) p.name).snd.entries
      p.name = none ∧
    (get_statistics
        (get_package t' ttl_hours (store_package t index p) p.name).snd).total_entries =
      (get_statistics (store_package t index p)).total_entries - 1 := by
  have hlook : lookupEntry (store_package t index p).entries p.name =
      some ⟨p, t, 1, t⟩ := by
    unfold store_package lookupEntry
    dsimp only
    rw [assoc_find?_insert_self]
    rfl
  have hff : ∀ (l : List (String × CacheEntry)),
      ((l.filter (fun e => !(e.fst == p.name))).filter
        (fun e => !(e.fst == p.name))) = l.filter (fun e => !(e.fst == p.name)) := by
    intro l
    rw [List.filter_filter]
    apply List.filter_congr
    intro x _
    exact Bool.and_self _
  have hentries : (get_package t' ttl_hours (store_package t index p) p.name).snd.entries =
      index.entries.filter (fun e => !(e.fst == p.name)) := by
    unfold get_package
    rw [hlook]
    dsimp only
    rw [if_neg (by omega)]
    unfold store_package
    dsimp only
    rw [List.filter_append, hff]
    simp
  refine ⟨?_, ?_, ?_, ?_⟩
  · unfold get_package
    rw [hlook]
    dsimp only
    rw [if_pos (by simpa [Nat.sub_self] using httl)]
  · unfold get_package
    rw [hlook]
    dsimp only
    rw [if_neg (by omega)]
  · rw [hentries]
    unfold lookupEntry
    rw [assoc_find?_filter_out]
    rfl
  · unfold get_statistics
    dsimp only
    rw [hentries]
    unfold store_package
    dsimp only
    rw [List.length_append]
    simp

/-- C6: a cache hit returns the stored package and bumps access_count
and last_accessed of that entry while leaving cached_at (and therefore
the TTL age) and all other entries unchanged. -/
theorem cache_hit_access_only (now ttl_hours : Nat) (index : CacheIndex)
    (name : String) (entry : CacheEntry)
    (hfind : lookupEntry index.entries name = some entry)
    (hfresh : (now - entry.cached_at) / 3600 < ttl_hours) :
    (get_package now ttl_hours index name).fst = some entry.package ∧
    lookupEntry (get_package now ttl_hours index name).snd.entries name =
      some ⟨entry.package, entry.cached_at, entry.access_count + 1, now⟩ ∧
    (∀ m, m ≠ name →
      lookupEntry (get_package now ttl_hours index name).snd.entries m =
        lookupEntry index.entries m) := by
  unfold get_package
  rw [hfind]
  dsimp only
  rw [if_pos hfresh]
  refine ⟨rfl, ?_, ?_⟩
  · unfold lookupEntry at hfind ⊢
    dsimp only
    cases hf : index.entries.find? (fun e => e.fst == name) with
    | none => rw [hf] at hfind; cases hfind
    | some e0 =>
      rw [assoc_find?_map_update_self index.entries name _ e0 hf]
      rfl
  · intro m hm
    unfold lookupEntry
    dsimp only
    rw [assoc_find?_map_update_other index.entries name _ m hm]

/-- C10: install_package leaves the status map untouched whenever it
returns an error (or short-circuits), never modifies entries of other
packages, and any change it makes is exactly the successful recording
of Installed for the installed package. -/
theorem install_package_status_frame (env : ExecEnv)
    (strategy : Installation → Except Error Unit) (installed_cache : StatusMap)
    (package : Package) (force : Bool) (now : String) :
    ((∃ e, (install_package env strategy installed_cache package force now).snd =
        .error e) →
      (install_package env strategy installed_cache package force now).fst =
        installed_cache) ∧
    (∀ n, n ≠ package.name →
      lookupStatus (install_package env strategy installed_cache package force now).fst n =
        lookupStatus installed_cache n) ∧
    ((install_package env strategy installed_cache package force now).fst ≠
        installed_cache →
      (install_package env strategy installed_cache package force now).snd = .ok () ∧
      lookupStatus (install_package env strategy installed_cache package force now).fst
        package.name = some (.Installed package.version now)) := by
  unfold install_package
  split
  · exact ⟨fun _ => rfl, fun n _ => rfl, fun h => absurd rfl h⟩
  · split
    · exact ⟨fun _ => rfl, fun n _ => rfl, fun h => absurd rfl h⟩
    · split
      · exact ⟨fun _ => rfl, fun n _ => rfl, fun h => absurd rfl h⟩
      · refine ⟨?_, ?_, ?_⟩
        · rintro ⟨e, he⟩
          simp at he
        · intro n hn
          unfold lookupStatus insertStatus
          dsimp only
          rw [assoc_find?_insert_other _ _ _ _ hn]
        · intro _
          refine ⟨rfl, ?_⟩
          unfold lookupStatus insertStatus
          dsimp only
          rw [assoc_find?_insert_self]
          rfl

/-- C9: the refresh probe reports Installed only for the Pacman
(native-manager) installation method; every other method always yields
NotInstalled regardless of the probe oracle. -/
theorem check_package_status_non_pacman (pacmanQ : String → Option String)
    (package : Package) :
    ((∀ packages flags, package.installation ≠ .Pacman packages flags) →
      check_package_status pacmanQ package = .NotInstalled) ∧
    (∀ version installed_at,
      check_package_status pacmanQ package = .Installed version installed_at →
      ∃ packages flags, package.installation = .Pacman packages flags) := by
  constructor
  · intro h
    unfold check_package_status
    cases hinst : package.installation with
    | Pacman ps fl => exact absurd hinst (h ps fl)
    | Aur a b => rfl
    | Binary a b c d => rfl
    | Source a b c => rfl
    | Script a b => rfl
    | AppImage a b c => rfl
    | Flatpak a b => rfl
  · intro version installed_at heq
    unfold check_package_status at heq
    cases hinst : package.installation with
    | Pacman ps fl => exact ⟨ps, fl, rfl⟩
    | Aur a b => rw [hinst] at heq; cases heq
    | Binary a b c d => rw [hinst] at heq; cases heq
    | Source a b c => rw [hinst] at heq; cases heq
    | Script a b => rw [hinst] at heq; cases heq
    | AppImage a b c => rw [hinst] at heq; cases heq
    | Flatpak a b => rw [hinst] at heq; cases heq

/-- C4: a RemoteBinary install whose downloaded content hashes to a
digest different from the supplied checksum fails with
InstallationFailed before performing any filesystem action: no parent
directory is created and nothing is written at the install path. -/
theorem install_binary_checksum_mismatch (net : String → NetResponse)
    (sha256hex : List Nat → String) (url : String) (expected_checksum : String)
    (install_path : String) (executable : Bool)
    (hstatus : (net url).statusSuccess = true)
    (hmismatch : sha256hex (net url).body ≠ expected_checksum) :
    install_binary net sha256hex url (some expected_checksum) install_path executable =
      ([], .error (.InstallationFailed ("Checksum mismatch. Expected: " ++
        expected_checksum ++ ", Got: " ++ sha256hex (net url).body))) := by
  unfold install_binary
  dsimp only
  rw [hstatus]
  simp only [Bool.not_true, Bool.false_eq_true, if_false]
  rw [if_pos hmismatch]

/-- C8: installing system dependencies issues no native-manager call
when the package has no System-kind dependencies and exactly one
batched call covering all of them otherwise; a non-success exit of
that single call aborts with CommandFailed. -/
theorem install_system_dependencies_batched (env : ExecEnv) (package : Package) :
    (package.get_dependencies .System = [] →
      install_system_dependencies env package = ([], .ok ())) ∧
    (package.get_dependencies .System ≠ [] →
      ∃ cmd, (install_system_dependencies env package).fst = [cmd] ∧
        cmd.program = "pacman" ∧
        cmd.args = ["-S", "--needed", "--noconfirm"] ++
          (package.get_dependencies .System).map (fun dep => dep.name) ∧
        (∀ d ∈ package.get_dependencies .System, d.name ∈ cmd.args) ∧
        ((env.exec cmd).success = true ↔
          (install_system_dependencies env package).snd = .ok ()) ∧
        ((env.exec cmd).success = false →
          (install_system_dependencies env package).snd = .error (.CommandFailed
            ("Failed to install system dependencies: " ++ (env.exec cmd).stderr)))) := by
  constructor
  · intro h
    unfold install_system_dependencies
    rw [h]
    rfl
  · intro h
    have hne : ((package.get_dependencies .System).map (fun dep => dep.name)).isEmpty
        = false := by
      cases hd : package.get_dependencies .System with
      | nil => exact absurd hd h
      | cons a l => simp [hd]
    refine ⟨⟨"pacman", ["-S", "--needed", "--noconfirm"] ++
      (package.get_dependencies .System).map (fun dep => dep.name)⟩, ?_, rfl, rfl, ?_, ?_, ?_⟩
    · simp only [install_system_dependencies, hne, Bool.false_eq_true, if_false]
      split
      · rfl
      · rfl
    · intro d hd
      exact List.mem_append_right _ (List.mem_map.mpr ⟨d, hd, rfl⟩)
    · simp only [install_system_dependencies, hne, Bool.false_eq_true, if_false]
      constructor
      · intro hs
        rw [if_pos hs]
      · intro hs
        by_cases hexec : (env.exec ⟨"pacman", ["-S", "--needed", "--noconfirm"] ++
            (package.get_dependencies .System).map (fun dep => dep.name)⟩).success = true
        · exact hexec
        · rw [if_neg hexec] at hs
          cases hs
    · intro hs
      simp only [install_system_dependencies, hne, Bool.false_eq_true, if_false]
      rw [if_neg (by rw [hs]; exact Bool.false_ne_true)]

/-! ## Post-install configuration: best-effort vs propagated failures -/

/-- An environment in which every process succeeds but every
config-file write fails. -/
def envC1 : ExecEnv :=
  ⟨fun _ => ⟨true, ""⟩, fun _ => false, "", true, "user"⟩

/-- A post-install block with a command, a config file and a service. -/
def piC1 : PostInstall :=
  ⟨some ["echo hi"], some [("/etc/app.conf", "x")], some ["sshd"], none, none⟩

/-- A package carrying piC1. -/
def pkgC1 : Package :=
  ⟨"app", "1.0", "demo app", none, [], [], .Script "true" "/bin/bash", some piC1, mdW⟩

/-- C1 counterexample: with a failing config-file write, post-install
configuration stops after the failed write (the sshd service enable is
never attempted, as the full trace shows) and the install returns the
error, contradicting the claim that no individual post-install failure
aborts the remaining actions or the overall install. -/
theorem run_post_install_aborts_counterexample :
    (run_post_install envC1 piC1).fst =
      [.RanCommand "echo hi" true, .ConfigWrite "/etc/app.conf" false] ∧
    (run_post_install envC1 piC1).snd = .error (.Io "write failed: /etc/app.conf") ∧
    (Installer.install envC1 (fun _ => .ok ()) pkgC1).snd =
      .error (.Io "write failed: /etc/app.conf") :=
  ⟨rfl, rfl, rfl⟩

/-- C1 (amended): commands, service enables and group adds are each
attempted and their non-success exits never abort the post-install
phase or the install; but config-file writes and the profile write are
propagated failure points, so the install succeeds when those writes
succeed, whatever the command exits. -/
theorem run_post_install_best_effort (env : ExecEnv)
    (strategy : Installation → Except Error Unit) (package : Package)
    (post : PostInstall)
    (hpi : package.post_install = some post)
    (hstrat : strategy package.installation = .ok ())
    (hcfg : ∀ files, post.config_files = some files → ∀ f ∈ files, env.writeOk f.fst = true)
    (hprof : post.environment.isSome = true → env.profileWriteOk = true) :
    (Installer.install env strategy package).snd = .ok () ∧
    (∀ commands, post.commands = some commands → ∀ c ∈ commands,
      PIAction.RanCommand c (run_shell_command env c).success ∈
        (Installer.install env strategy package).fst) ∧
    (∀ services, post.enable_services = some services → ∀ s ∈ services,
      enable_service env s ∈ (Installer.install env strategy package).fst) ∧
    (∀ groups, post.user_groups = some groups → ∀ g ∈ groups,
      add_user_to_group env g ∈ (Installer.install env strategy package).fst) := by
  have hinstall : Installer.install env strategy package = run_post_install env post := by
    unfold Installer.install
    rw [hstrat]
    dsimp only
    rw [hpi]
  have hcfgloop : ∀ files, (∀ f ∈ files, env.writeOk f.fst = true) →
      config_files_loop env files =
        (files.map (fun f => PIAction.ConfigWrite f.fst true), .ok ()) := by
    intro files
    induction files with
    | nil => intro _; rfl
    | cons f rest ih =>
      intro hf
      obtain ⟨path, content⟩ := f
      have hw : env.writeOk path = true := hf (path, content) (List.mem_cons_self _ _)
      unfold config_files_loop create_config_file
      rw [if_pos hw]
      dsimp only
      rw [ih (fun g hg => hf g (List.mem_cons_of_mem _ hg))]
      rfl
  have heq : run_post_install env post =
      ((match post.commands with
          | some cs => run_commands_loop env cs
          | none => []) ++
        (match post.config_files with
          | some files => files.map (fun f => PIAction.ConfigWrite f.fst true)
          | none => []) ++
        (match post.enable_services with
          | some ss => ss.map (enable_service env)
          | none => []) ++
        (match post.user_groups with
          | some gs => gs.map (add_user_to_group env)
          | none => []) ++
        (match post.environment with
          | some _ => [PIAction.ProfileWrite true]
          | none => []),
        .ok ()) := by
    rcases hfc : post.config_files with _ | files
    · rcases hen : post.environment with _ | vars
      · simp only [run_post_install, hfc, hen]
      · have hpw : env.profileWriteOk = true := hprof (by rw [hen]; rfl)
        have hsev : set_environment_variables env vars = ([.ProfileWrite true], .ok ()) := by
          simp only [set_environment_variables, hpw, if_true]
        simp only [run_post_install, hfc, hen, hsev]
    · have hloop := hcfgloop files (hcfg files hfc)
      rcases hen : post.environment with _ | vars
      · simp only [run_post_install, hfc, hen, hloop]
      · have hpw : env.profileWriteOk = true := hprof (by rw [hen]; rfl)
        have hsev : set_environment_variables env vars = ([.ProfileWrite true], .ok ()) := by
          simp only [set_environment_variables, hpw, if_true]
        simp only [run_post_install, hfc, hen, hloop, hsev]
  rw [hinstall, heq]
  refine ⟨rfl, ?_, ?_, ?_⟩
  · intro cs hcs c hc
    rw [hcs]
    dsimp only
    refine List.mem_append_left _ (List.mem_append_left _ (List.mem_append_left _
      (List.mem_append_left _ ?_)))
    unfold run_commands_loop
    exact List.mem_map.mpr ⟨c, hc, rfl⟩
  · intro ss hss s hs
    rw [hss]
    dsimp only
    refine List.mem_append_left _ (List.mem_append_left _ (List.mem_append_right _ ?_))
    exact List.mem_map.mpr ⟨s, hs, rfl⟩
  · intro gs hgs g hg
    rw [hgs]
    dsimp only
    refine List.mem_append_left _ (List.mem_append_right _ ?_)
    exact List.mem_map.mpr ⟨g, hg, rfl⟩

/-! ## Witness data and witness theorems -/

/-- An environment in which every external action succeeds. -/
def envOkW : ExecEnv :=
  ⟨fun _ => ⟨true, ""⟩, fun _ => true, "", true, "user"⟩

/-- A full post-install block for the best-effort witness. -/
def piW : PostInstall :=
  ⟨some ["echo hi"], some [("/etc/a.conf", "x")], some ["sshd"], some ["wheel"],
    some [("K", "V")]⟩

/-- A package carrying piW. -/
def pkgPW : Package :=
  ⟨"app2", "1.0", "demo app 2", none, [], [], .Script "true" "/bin/bash", some piW, mdW⟩

theorem run_post_install_best_effort_witness :
    (Installer.install envOkW (fun _ => .ok ()) pkgPW).snd = .ok () ∧
    (∀ commands, piW.commands = some commands → ∀ c ∈ commands,
      PIAction.RanCommand c (run_shell_command envOkW c).success ∈
        (Installer.install envOkW (fun _ => .ok ()) pkgPW).fst) ∧
    (∀ services, piW.enable_services = some services → ∀ s ∈ services,
      enable_service envOkW s ∈ (Installer.install envOkW (fun _ => .ok ()) pkgPW).fst) ∧
    (∀ groups, piW.user_groups = some groups → ∀ g ∈ groups,
      add_user_to_group envOkW g ∈ (Installer.install envOkW (fun _ => .ok ()) pkgPW).fst) :=
  run_post_install_best_effort envOkW (fun _ => .ok ()) pkgPW piW rfl rfl
    (fun _ hf => by injection hf with h; subst h; intro f _; rfl)
    (fun _ => rfl)

theorem resolve_packages_correct_witness :
    ∃ L, resolve_packages storeW ["a"] = .ok L ∧
      (∀ n ∈ ["a"], ∀ p, lookupStore storeW n = some p → p ∈ L) ∧
      (∀ n, (∃ r ∈ ["a"], Relation.ReflTransGen (DepStep storeW) r n) →
        (L.map Package.name).count n = 1) ∧
      OrderOK L :=
  resolve_packages_correct storeW ["a"] wfW acyclicW closedW
    (fun n hn => by
      simp at hn
      subst hn
      exact ⟨pkgAW, by decide⟩)

/-- A mandatory Package-kind dependency on a. -/
def depCycW : Dependency := ⟨"a", none, false, none, .Package⟩

/-- A package b that depends back on a, closing a cycle with pkgAW. -/
def pkgBCycW : Package :=
  ⟨"b", "1.0", "demo package b cyclic", none, [], [depCycW], .Pacman ["b"] none, none, mdW⟩

/-- A cyclic witness store: a depends on b and b depends on a. -/
def storeCycW : Store := [("a", pkgAW), ("b", pkgBCycW)]

theorem resolve_cycle_and_missing_witness :
    resolve_packages storeCycW ["a"] =
      .error (.Dependency ("Circular dependency detected: " ++ "a")) ∧
    resolve_packages storeW ["missing"] = .error (.PackageNotFound "missing") :=
  ⟨resolve_cycle_and_missing.1 storeCycW "a" "b" pkgAW pkgBCycW depPkgW depCycW
      (by decide) (by decide) (by decide) rfl rfl rfl rfl rfl rfl rfl rfl,
    resolve_cycle_and_missing.2 storeW "missing" (by decide)⟩

theorem resolve_packages_sound_witness :
    ∃ r ∈ ["a"], Relation.ReflTransGen (DepStep storeW) r pkgBW.name :=
  resolve_packages_sound storeW ["a"] [pkgBW, pkgAW] wfW hevalW pkgBW (by simp)

/-- The empty cache index used by the cache witnesses. -/
def idxW : CacheIndex := ⟨[], "0.1.0", 0⟩

theorem cache_put_get_ttl_witness :
    (get_package 0 1 (store_package 0 idxW pkgAW) pkgAW.name).fst = some pkgAW ∧
    (get_package 3600 1 (store_package 0 idxW pkgAW) pkgAW.name).fst = none ∧
    lookupEntry (get_package 3600 1 (store_package 0 idxW pkgAW) pkgAW.name).snd.entries
      pkgAW.name = none ∧
    (get_statistics
        (get_package 3600 1 (store_package 0 idxW pkgAW) pkgAW.name).snd).total_entries =
      (get_statistics (store_package 0 idxW pkgAW)).total_entries - 1 :=
  cache_put_get_ttl idxW pkgAW 0 3600 1 (by decide) (by decide)

/-- A cache entry for the hit witness. -/
def entW : CacheEntry := ⟨pkgAW, 0, 1, 0⟩

/-- A one-entry cache index for the hit witness. -/
def idxHitW : CacheIndex := ⟨[("a", entW)], "0.1.0", 0⟩

theorem cache_hit_access_only_witness :
    (get_package 10 24 idxHitW "a").fst = some entW.package ∧
    lookupEntry (get_package 10 24 idxHitW "a").snd.entries "a" =
      some ⟨entW.package, entW.cached_at, entW.access_count + 1, 10⟩ ∧
    (∀ m, m ≠ "a" →
      lookupEntry (get_package 10 24 idxHitW "a").snd.entries m =
        lookupEntry idxHitW.entries m) :=
  cache_hit_access_only 10 24 idxHitW "a" entW (by decide) (by decide)

theorem install_package_status_frame_witness :
    (install_package envOkW (fun _ => .error (.InstallationFailed "boom")) [] pkgC1
      false "now").fst = [] :=
  (install_package_status_frame envOkW (fun _ => .error (.InstallationFailed "boom"))
    [] pkgC1 false "now").1 ⟨.InstallationFailed "boom", rfl⟩

theorem check_package_status_non_pacman_witness :
    check_package_status (fun _ => some "9.9") pkgC1 = .NotInstalled :=
  (check_package_status_non_pacman (fun _ => some "9.9") pkgC1).1
    (fun _ _ h => Installation.noConfusion h)

theorem install_binary_checksum_mismatch_witness :
    install_binary (fun _ => ⟨true, [1, 2, 3]⟩) (fun _ => "deadbeef")
      "https://example.com/tool" (some "0000") "/usr/local/bin/tool" true =
      ([], .error (.InstallationFailed ("Checksum mismatch. Expected: " ++
        "0000" ++ ", Got: " ++ "deadbeef"))) :=
  install_binary_checksum_mismatch (fun _ => ⟨true, [1, 2, 3]⟩) (fun _ => "deadbeef")
    "https://example.com/tool" "0000" "/usr/local/bin/tool" true rfl (by decide)

/-- A System-kind dependency for the batching witness. -/
def depSysW : Dependency := ⟨"openssl", none, false, none, .System⟩

/-- A package with one System-kind dependency. -/
def pkgSW : Package :=
  ⟨"s", "1.0", "demo package s", none, [], [depSysW], .Pacman ["s"] none, none, mdW⟩

/-- An environment in which every external command fails. -/
def envFailW : ExecEnv :=
  ⟨fun _ => ⟨false, "boom"⟩, fun _ => true, "", true, "user"⟩

theorem install_system_dependencies_batched_witness :
    ∃ cmd, (install_system_dependencies envFailW pkgSW).fst = [cmd] ∧
      cmd.program = "pacman" ∧
      cmd.args = ["-S", "--needed", "--noconfirm"] ++
        (pkgSW.get_dependencies .System).map (fun dep => dep.name) ∧
      (∀ d ∈ pkgSW.get_dependencies .System, d.name ∈ cmd.args) ∧
      ((envFailW.exec cmd).success = true ↔
        (install_system_dependencies envFailW pkgSW).snd = .ok ()) ∧
      ((envFailW.exec cmd).success = false →
        (install_system_dependencies envFailW pkgSW).snd = .error (.CommandFailed
          ("Failed to install system dependencies: " ++ (envFailW.exec cmd).stderr))) :=
  (install_system_dependencies_batched envFailW pkgSW).2 (by decide)

end Archbox

